import Mathlib

/-
Verification of the generation-rotation and sync-orchestration engine of
ito_backup.py.

The script keeps, per backup job and per discovered remote folder, a ring of
numbered snapshot directories `<target_path>/<folder>.<k>`.  Each nightly run
purges generations at index rotate_level-1 .. 98, renames generation x to
x+1 for x = rotate_level-2 down to 0, creates a fresh generation 0, and runs
rsync into it, passing `--link-dest=<folder>.1` when that directory exists.
Per-target errors are caught by a try/except that logs, sets the batch-wide
happy flag to False and moves on to the next target; discovery errors skip
the whole job the same way.

The embedding models a ring as a map from generation index to the identity
of the directory occupying it (directories are identified by numeric tags so
that "the directory that was generation 0" is expressible), and models the
job/batch runners as folds over the discovered target list and the job list,
with the external world (root folder existence, rmtree failures, rsync exit
status, the parsed "total size is N" byte count) supplied as explicit data.
-/

/-- A generation ring for one (target_path, folder) pair: which snapshot
directory (identified by a numeric tag) occupies each generation index.
`none` at index i means `<target_path>/<folder>.<i>` does not exist. -/
abbrev GenRing := Nat → Option Nat

/-- The ring of a folder that has never been backed up: no generation
directory exists. -/
def emptyRing : GenRing := fun _ => none

/-- Recursive deletion of the generation directory at index r
(`shutil.rmtree(last_rot)` guarded by `os.path.isdir`; deleting an absent
index is a no-op because of the guard, and deleting it twice is harmless). -/
def rmIdx (g : GenRing) (r : Nat) : GenRing := fun i => if i = r then none else g i

/-- Creation of a fresh directory v at index r (`os.mkdir`). -/
def setIdx (g : GenRing) (r : Nat) (v : Nat) : GenRing :=
  fun i => if i = r then some v else g i

/-- `os.rename` of the directory v at generation x to generation x+1: index x
becomes absent and index x+1 holds v. -/
def moveIdx (g : GenRing) (x : Nat) (v : Nat) : GenRing :=
  fun i => if i = x then none else if i = x + 1 then some v else g i

/-- The indices visited by the purge loop `for r in range(rotate_level-1, 99)`
of ito_backup.py line 171: rotate_level-1, rotate_level, ..., 98 (empty when
rotate_level is at least 100). -/
def purgeIdxs (n : Nat) : List Nat := List.range' (n - 1) (99 - (n - 1))

/-- The indices visited by the shift loop
`for x in range(rotate_level - 2, -1, -1)` of line 179: rotate_level-2 down
to 0 (empty when rotate_level is 1). -/
def shiftIdxs (n : Nat) : List Nat := (List.range (n - 1)).reverse

/-- The purge loop of lines 171-174 with its exception behaviour.  `fail r`
says that `shutil.rmtree` raises at index r.  Each existing index in the
list is deleted in turn; a raising rmtree stops the loop at once (the
exception propagates out of the `for` to the per-target except clause), so
the result is the ring as deleted so far paired with false. -/
def purgeRun (fail : Nat → Bool) : List Nat → GenRing → GenRing × Bool
  | [], g => (g, true)
  | r :: rs, g =>
    if (g r).isSome then
      if fail r then (g, false) else purgeRun fail rs (rmIdx g r)
    else purgeRun fail rs g

/-- The purge loop when no deletion raises: every existing generation at an
index of `purgeIdxs n` is removed. -/
def purge (n : Nat) (g : GenRing) : GenRing := (purgeIdxs n).foldl rmIdx g

/-- The shift loop of lines 179-184: for each listed index x (descending),
`if os.path.isdir(rot_from): os.rename(rot_from, rot_to)`.  Renaming onto an
index whose generation directory still exists raises (`os.rename` refuses to
replace a non-empty directory), stopping the loop; the result is the ring as
shifted so far paired with the success flag. -/
def shiftRun : List Nat → GenRing → GenRing × Bool
  | [], g => (g, true)
  | x :: xs, g =>
    match g x with
    | none => shiftRun xs g
    | some v => if g (x + 1) = none then shiftRun xs (moveIdx g x v) else (g, false)

/-- What the rotation hands to the rsync call: the ring after purge, shift
and creation of the fresh generation 0, and the occupant of index 1 passed
via `--link-dest=<folder>.1` when `os.path.isdir(link_src)` holds (lines
202-204) - `none` when no link destination is supplied. -/
structure SyncCall where
  ring : GenRing
  linkDest : Option Nat

/-- One rotation of the per-target body on the success path of the purge
(lines 171-204): purge, shift, `os.mkdir` of generation 0 (which raises if
generation 0 still exists), then the link-dest test.  `fresh` is the
identity of the newly created generation-0 directory.  `none` when a step
raised, in which case the per-target except clause fires. -/
def rotateAndPrepare (n : Nat) (g : GenRing) (fresh : Nat) : Option SyncCall :=
  match shiftRun (shiftIdxs n) (purge n g) with
  | (_, false) => none
  | (g2, true) =>
    if (g2 0).isSome then none
    else
      let g3 := setIdx g2 0 fresh
      some { ring := g3, linkDest := g3 1 }

/-- k successful rotation+sync cycles for one target, starting from ring g.
Cycle j creates its generation 0 with identity j.  The sync step mirrors
remote content into the fresh generation 0 and never changes which indices
exist, so only the rotations act on the ring.  `none` as soon as one
rotation raises. -/
def runCycles (n : Nat) (g : GenRing) : Nat → Option GenRing
  | 0 => some g
  | k + 1 =>
    match runCycles n g k with
    | none => none
    | some g2 =>
      match rotateAndPrepare n g2 k with
      | none => none
      | some sc => some sc.ring

/-- The outside world's answers for one target's attempt: at which purge
indices `shutil.rmtree` raises, whether the rsync transfer process exits with
status 0, and the byte count the `total size is (\d+)` pattern extracts from
its stdout (`none` when the pattern is absent, in which case
`match_obj.group(1)` raises). -/
structure Outcome where
  rmFail : Nat → Bool
  syncOk : Bool
  parsedSize : Option Nat

/-- The body of the per-target try block (lines 154-220) for one folder with
ring g: check that backup_folder exists (raise if not), purge, shift, mkdir
generation 0, run rsync, extract the byte count.  Returns the folder's ring
as left on disk and `some size` on success or `none` when any step raised
(the ring keeps whatever the steps before the raise did to it). -/
def processTarget (n : Nat) (be : Bool) (oc : Outcome) (fresh : Nat)
    (g : GenRing) : GenRing × Option Nat :=
  if be then
    match purgeRun oc.rmFail (purgeIdxs n) g with
    | (g1, false) => (g1, none)
    | (g1, true) =>
      match shiftRun (shiftIdxs n) g1 with
      | (g2, false) => (g2, none)
      | (g2, true) =>
        if (g2 0).isSome then (g2, none)
        else
          let g3 := setIdx g2 0 fresh
          if oc.syncOk then
            match oc.parsedSize with
            | some s => (g3, some s)
            | none => (g3, none)
          else (g3, none)
  else (g, none)

/-- The running state of one job: the ring of every folder under the job's
target_path, whether the target_path directory exists, the batch-wide happy
flag, and the job's subtotal of transferred bytes. -/
@[ext]
structure St where
  fs : String → GenRing
  tp : Bool
  happy : Bool
  subtotal : Nat

/-- One iteration of the per-target loop (lines 148-225): ensure target_path
exists (`os.makedirs`, reached only when the backup_folder check passed),
run the try-block body on the target's own ring, and on an exception log it,
set happy to False and fall through to the next target; on success add the
extracted size to the job subtotal. -/
def stepTarget (n : Nat) (be : Bool) (oc : String → Outcome) (fr : String → Nat)
    (st : St) (t : String) : St :=
  let r := processTarget n be (oc t) (fr t) (st.fs t)
  { fs := Function.update st.fs t r.1
    tp := if be then true else st.tp
    happy := match r.2 with
      | some _ => st.happy
      | none => false
    subtotal := st.subtotal + r.2.getD 0 }

/-- The per-target loop over the folders in discovery order. -/
def runTargets (n : Nat) (be : Bool) (oc : String → Outcome) (fr : String → Nat)
    (ts : List String) (st : St) : St :=
  ts.foldl (stepTarget n be oc fr) st

/-- The transferred-byte counts of the successful targets, in discovery
order, along the same run that `runTargets` performs. -/
def runSizes (n : Nat) (be : Bool) (oc : String → Outcome) (fr : String → Nat) :
    List String → St → List Nat
  | [], _ => []
  | t :: ts, st =>
    match (processTarget n be (oc t) (fr t) (st.fs t)).2 with
    | some s => s :: runSizes n be oc fr ts (stepTarget n be oc fr st t)
    | none => runSizes n be oc fr ts (stepTarget n be oc fr st t)

/-- Whitespace tokenisation of the discovery stdout, as Python's
`bytes.split()` with no separator: split on whitespace runs, no empty
tokens. -/
def splitTokens (s : String) : List String :=
  (s.split Char.isWhitespace).filter (fun t => !t.isEmpty)

/-- Target discovery for one job (lines 128-139): run `rsync user@host::`,
and with the process's exit status and captured stdout/stderr, either raise
`RsyncError(stderr)` on a non-zero status or return the whitespace-separated
folder list. -/
def listTargets (status : Int) (stdout stderr : String) :
    Except String (List String) :=
  if status ≠ 0 then Except.error stderr else Except.ok (splitTokens stdout)

/-- One configured job as the batch sees it: its rotate_level, the result of
target discovery (the `Except` that `listTargets` produced), the per-target
outside world, the identities of the generation-0 directories each target's
rotation would create, and the job's on-disk state (rings and target_path
existence) before the run. -/
structure JobSpec where
  rotateLevel : Nat
  disc : Except String (List String)
  oc : String → Outcome
  fr : String → Nat
  fs0 : String → GenRing
  tp0 : Bool

/-- One job of the batch loop (lines 115-228): a discovery error sets happy
to False and `continue`s to the next job (no subtotal is accumulated);
otherwise the per-target loop runs with subtotal 0 and the job contributes
its final subtotal.  Returns the happy flag and the job's contribution to
the total. -/
def runJob (be : Bool) (j : JobSpec) (happy : Bool) : Bool × Nat :=
  match j.disc with
  | Except.error _ => (false, 0)
  | Except.ok ts =>
    let st := runTargets j.rotateLevel be j.oc j.fr ts
      { fs := j.fs0, tp := j.tp0, happy := happy, subtotal := 0 }
    (st.happy, st.subtotal)

/-- One job's effect on the batch accumulator (happy flag, running total):
run the job with the current happy flag and add its contribution to the
total (`total += subtotal`, line 228). -/
def batchStep (be : Bool) (acc : Bool × Nat) (j : JobSpec) : Bool × Nat :=
  let r := runJob be j acc.1
  (r.1, acc.2 + r.2)

/-- The batch loop: jobs in configuration order, threading the happy flag
and accumulating the total. -/
def runBatch (be : Bool) (jobs : List JobSpec) (happy : Bool) : Bool × Nat :=
  jobs.foldl (batchStep be) (happy, 0)

/-- The whole batch as __main__ runs it: `total = 0; happy = True` (lines
112-113) and then the job loop. -/
def mainBatch (be : Bool) (jobs : List JobSpec) : Bool × Nat :=
  runBatch be jobs true

/-- The ring that a successful shift leaves when the purge freed index n-1:
index 0 empty, indices 1..n-1 holding their former predecessor, higher
indices untouched. -/
def afterShift (n : Nat) (g : GenRing) : GenRing :=
  fun i => if i = 0 then none else if i ≤ n - 1 then purge n g (i - 1) else purge n g i

lemma foldl_rmIdx_apply : ∀ (l : List Nat) (g : GenRing) (i : Nat),
    l.foldl rmIdx g i = if i ∈ l then none else g i := by
  intro l
  induction l with
  | nil => intro g i; simp
  | cons r rs ih =>
    intro g i
    simp only [List.foldl_cons, ih, List.mem_cons]
    by_cases h : i ∈ rs
    · simp [h]
    · by_cases h2 : i = r <;> simp [h, h2, rmIdx]

lemma purge_apply (n : Nat) (g : GenRing) (i : Nat) :
    purge n g i = if n - 1 ≤ i ∧ i ≤ 98 then none else g i := by
  have h := foldl_rmIdx_apply (purgeIdxs n) g i
  rw [purge] at *
  rw [h]
  by_cases hm : n - 1 ≤ i ∧ i ≤ 98
  · rw [if_pos, if_pos hm]
    simp only [purgeIdxs, List.mem_range'_1]
    omega
  · rw [if_neg, if_neg hm]
    simp only [purgeIdxs, List.mem_range'_1]
    omega

lemma shiftRun_desc : ∀ (m : Nat) (g : GenRing), g m = none →
    shiftRun (List.range m).reverse g =
      ((fun i => if i = 0 then none else if i ≤ m then g (i - 1) else g i), true) := by
  intro m
  induction m with
  | zero =>
    intro g hg
    simp only [List.range_zero, List.reverse_nil, shiftRun]
    refine Prod.ext ?_ rfl
    funext i
    by_cases h0 : i = 0
    · subst h0; simp [hg]
    · simp [h0, Nat.pos_of_ne_zero h0]
  | succ m ih =>
    intro g hg
    have hrev : (List.range (m + 1)).reverse = m :: (List.range m).reverse := by
      rw [List.range_succ, List.reverse_append]
      rfl
    rw [hrev]
    match hgm : g m with
    | none =>
      have h1 : shiftRun (m :: (List.range m).reverse) g =
          shiftRun (List.range m).reverse g := by
        simp only [shiftRun, hgm]
      rw [h1, ih g hgm]
      refine Prod.ext ?_ rfl
      funext i
      simp only
      by_cases h0 : i = 0
      · simp [h0]
      · simp only [h0, if_false]
        by_cases hle : i ≤ m
        · have h2 : i ≤ m + 1 := by omega
          simp [hle, h2]
        · by_cases h2 : i ≤ m + 1
          · have h3 : i = m + 1 := by omega
            subst h3
            simp [hle, h2, hg, hgm]
          · simp [hle, h2]
    | some v =>
      have hnext : g (m + 1) = none := hg
      have h1 : shiftRun (m :: (List.range m).reverse) g =
          shiftRun (List.range m).reverse (moveIdx g m v) := by
        simp only [shiftRun, hgm, hnext, if_pos]
      have hm2 : moveIdx g m v m = none := by simp [moveIdx]
      rw [h1, ih _ hm2]
      refine Prod.ext ?_ rfl
      funext i
      simp only
      by_cases h0 : i = 0
      · simp [h0]
      · simp only [h0, if_false]
        by_cases hle : i ≤ m
        · have h2 : i ≤ m + 1 := by omega
          have h3 : moveIdx g m v (i - 1) = g (i - 1) := by
            simp only [moveIdx]
            have hne : i - 1 ≠ m := by omega
            have hne2 : i - 1 ≠ m + 1 := by omega
            simp [hne, hne2]
          simp [hle, h2, h3]
        · by_cases h2 : i ≤ m + 1
          · have h3 : i = m + 1 := by omega
            subst h3
            simp [hle, h2, moveIdx, hgm]
          · have h3 : moveIdx g m v i = g i := by
              simp only [moveIdx]
              have hne : i ≠ m := by omega
              have hne2 : i ≠ m + 1 := by omega
              simp [hne, hne2]
            simp [hle, h2, h3]

lemma shiftRun_of_purged (n : Nat) (g : GenRing) (htop : purge n g (n - 1) = none) :
    shiftRun (shiftIdxs n) (purge n g) = (afterShift n g, true) :=
  shiftRun_desc (n - 1) (purge n g) htop

lemma rotate_eq (n : Nat) (g : GenRing) (fresh : Nat)
    (htop : purge n g (n - 1) = none) :
    rotateAndPrepare n g fresh =
      some ⟨setIdx (afterShift n g) 0 fresh, afterShift n g 1⟩ := by
  rw [rotateAndPrepare, shiftRun_of_purged n g htop]
  have h0 : (afterShift n g 0).isSome = false := by simp [afterShift]
  simp only [h0, Bool.false_eq_true, if_false]
  have h1 : setIdx (afterShift n g) 0 fresh 1 = afterShift n g 1 := by
    simp [setIdx]
  rw [h1]

lemma shiftRun_blocked (x : Nat) (xs : List Nat) (g : GenRing)
    (h1 : (g x).isSome) (h2 : (g (x + 1)).isSome) :
    shiftRun (x :: xs) g = (g, false) := by
  match hgx : g x with
  | none => rw [hgx] at h1; simp at h1
  | some v =>
    have hne : ¬ g (x + 1) = none := by
      intro hc; rw [hc] at h2; simp at h2
    simp only [shiftRun, hgx, hne, if_false]

lemma purge_top_free (n k fresh : Nat) (g : GenRing) (sc : SyncCall)
    (hn : 1 ≤ n)
    (hocc : ∀ i, (g i).isSome = true ↔ (i < k ∧ i < n))
    (hc : rotateAndPrepare n g fresh = some sc) :
    purge n g (n - 1) = none := by
  rw [purge_apply]
  by_cases hcase : n - 1 ≤ 98
  · exact if_pos ⟨Nat.le_refl _, hcase⟩
  · have hno : ¬ (n - 1 ≤ n - 1 ∧ n - 1 ≤ 98) := by omega
    rw [if_neg hno]
    by_contra hne
    have hs1 : (g (n - 1)).isSome := Option.ne_none_iff_isSome.mp hne
    have hlt1 := (hocc (n - 1)).mp hs1
    have hs2 : (g (n - 2)).isSome := by
      rw [hocc]; omega
    have hsp1 : (purge n g (n - 2)).isSome := by
      rw [purge_apply]
      have : ¬ (n - 1 ≤ n - 2 ∧ n - 2 ≤ 98) := by omega
      rw [if_neg this]
      exact hs2
    have hsp2 : (purge n g (n - 2 + 1)).isSome := by
      have he : n - 2 + 1 = n - 1 := by omega
      rw [he, purge_apply, if_neg hno]
      exact hs1
    have hs : shiftIdxs n = (n - 2) :: (List.range (n - 2)).reverse := by
      rw [shiftIdxs]
      have he : n - 1 = (n - 2) + 1 := by omega
      rw [he, List.range_succ, List.reverse_append]
      rfl
    have hblock := shiftRun_blocked (n - 2) ((List.range (n - 2)).reverse)
      (purge n g) hsp1 hsp2
    rw [rotateAndPrepare, hs, hblock] at hc
    exact absurd hc (by simp)

lemma runCycles_occ (n : Nat) (hn : 1 ≤ n) :
    ∀ (k : Nat) (g : GenRing), runCycles n emptyRing k = some g →
      ∀ i, (g i).isSome ↔ (i < k ∧ i < n) := by
  intro k
  induction k with
  | zero =>
    intro g h i
    rw [runCycles] at h
    injection h with h
    subst h
    simp [emptyRing]
  | succ k ih =>
    intro g h i
    rw [runCycles] at h
    cases hk : runCycles n emptyRing k with
    | none => rw [hk] at h; exact absurd h (by simp)
    | some g2 =>
      rw [hk] at h
      dsimp only at h
      cases hc : rotateAndPrepare n g2 k with
      | none => rw [hc] at h; exact absurd h (by simp)
      | some sc =>
        rw [hc] at h
        injection h with h
        have hocc := ih g2 hk
        have htop := purge_top_free n k k g2 sc hn hocc hc
        rw [rotate_eq n g2 k htop] at hc
        injection hc with hc
        subst hc
        subst h
        simp only [setIdx, afterShift]
        by_cases h0 : i = 0
        · subst h0
          have h00 : 0 < k + 1 ∧ 0 < n := by omega
          simp only [if_pos rfl]
          simpa using h00
        · rw [if_neg h0]
          by_cases hle : i ≤ n - 1
          · rw [if_neg h0, if_pos hle, purge_apply]
            have : ¬ (n - 1 ≤ i - 1 ∧ i - 1 ≤ 98) := by omega
            rw [if_neg this, hocc]
            omega
          · rw [if_neg h0, if_neg hle, purge_apply]
            by_cases hin : n - 1 ≤ i ∧ i ≤ 98
            · rw [if_pos hin]
              simp only [Option.isSome_none, Bool.false_eq_true, false_iff]
              omega
            · rw [if_neg hin, hocc]
              omega

/-- Claim C1: for every rotation depth N at least 1, starting from an empty
generation ring, after any number of successful rotation+sync cycles no
generation index at or above N exists: the set of existing indices stays a
subset of [0, N-1]. -/
theorem generation_indices_bounded (n k i : Nat) (hn : 1 ≤ n) (hi : n ≤ i) :
    (runCycles n emptyRing k).bind (fun g => g i) = none := by
  cases hk : runCycles n emptyRing k with
  | none => rfl
  | some g =>
    have h := runCycles_occ n hn k g hk i
    cases hgi : g i with
    | none => simp [hgi]
    | some v =>
      have hlt := h.mp (by rw [hgi]; rfl)
      exact absurd hlt (by omega)

theorem generation_indices_bounded_witness :
    (runCycles 2 emptyRing 3).bind (fun g => g 5) = none :=
  generation_indices_bounded 2 3 5 (by decide) (by decide)

/-- Claim C3: whenever a rotation succeeds, the link-dest argument is
supplied if and only if generation 1 exists after the shift (the linkDest
field equals the post-shift occupant of index 1); for depth at least 2 the
supplied link destination is exactly the directory that was generation 0
immediately before the cycle's rotation began (for depth 1 none is ever
supplied), and the first-ever cycle for a target (k = 0 prior successful
cycles, so an empty ring) uses no link-dest. -/
theorem link_dest_is_former_gen_zero (n k fresh : Nat) (g : GenRing) (sc : SyncCall)
    (hn : 1 ≤ n) (hk : runCycles n emptyRing k = some g)
    (hc : rotateAndPrepare n g fresh = some sc) :
    sc.linkDest = sc.ring 1
    ∧ sc.linkDest = (if n = 1 then none else g 0)
    ∧ (if k = 0 then sc.linkDest = none else True) := by
  have hocc := runCycles_occ n hn k g hk
  have htop := purge_top_free n k fresh g sc hn hocc hc
  rw [rotate_eq n g fresh htop] at hc
  injection hc with hc
  subst hc
  refine ⟨by simp [setIdx], ?_, ?_⟩
  · by_cases h1 : n = 1
    · subst h1
      have h2 : purge 1 g 1 = none := by
        rw [purge_apply]
        norm_num
      simp [afterShift, h2]
    · have hn2 : 2 ≤ n := by omega
      simp only [afterShift]
      rw [if_neg (by decide : (1:Nat) ≠ 0), if_pos (by omega : 1 ≤ n - 1), purge_apply]
      have hp : ¬ (n - 1 ≤ 0 ∧ (0:Nat) ≤ 98) := by omega
      rw [if_neg hp, if_neg h1]
  · by_cases hk0 : k = 0
    · subst hk0
      rw [if_pos rfl]
      rw [runCycles] at hk
      injection hk with hk
      subst hk
      have hz : ∀ j, purge n emptyRing j = none := by
        intro j
        rw [purge_apply]
        split <;> rfl
      simp [afterShift, hz]
    · rw [if_neg hk0]
      trivial

theorem link_dest_is_former_gen_zero_witness :
    ((rotateAndPrepare 2 emptyRing 5).getD ⟨emptyRing, none⟩).linkDest
      = ((rotateAndPrepare 2 emptyRing 5).getD ⟨emptyRing, none⟩).ring 1
    ∧ ((rotateAndPrepare 2 emptyRing 5).getD ⟨emptyRing, none⟩).linkDest
      = (if 2 = 1 then none else emptyRing 0)
    ∧ (if 0 = 0 then
        ((rotateAndPrepare 2 emptyRing 5).getD ⟨emptyRing, none⟩).linkDest = none
      else True) :=
  link_dest_is_former_gen_zero 2 0 5 emptyRing
    ((rotateAndPrepare 2 emptyRing 5).getD ⟨emptyRing, none⟩) (by decide) rfl rfl

/-- Claim C10: with rotation depth 1 every cycle deletes the existing
generation 0 during the purge (whose range starts at index 0), the shift
loop is empty, the ring after a successful rotation holds nothing but the
fresh generation 0, and no link destination is ever supplied. -/
theorem depth_one_no_history (k fresh : Nat) (g : GenRing) (sc : SyncCall)
    (hk : runCycles 1 emptyRing k = some g)
    (hc : rotateAndPrepare 1 g fresh = some sc) :
    purge 1 g 0 = none
    ∧ shiftIdxs 1 = []
    ∧ sc.ring = (fun i => if i = 0 then some fresh else none)
    ∧ sc.linkDest = none := by
  have hocc := runCycles_occ 1 (Nat.le_refl 1) k g hk
  have hpz : ∀ i, purge 1 g i = none := by
    intro i
    rw [purge_apply]
    by_cases hle : i ≤ 98
    · exact if_pos ⟨Nat.zero_le i, hle⟩
    · rw [if_neg (by omega)]
      cases hgi : g i with
      | none => rfl
      | some v =>
        have hlt := (hocc i).mp (by rw [hgi]; rfl)
        exact absurd hlt (by omega)
  rw [rotate_eq 1 g fresh (hpz 0)] at hc
  injection hc with hc
  subst hc
  refine ⟨hpz 0, rfl, ?_, ?_⟩
  · funext i
    simp only [setIdx]
    by_cases h0 : i = 0
    · simp [h0]
    · rw [if_neg h0, if_neg h0]
      simp only [afterShift, if_neg h0]
      split <;> exact hpz _
  · simp [afterShift, hpz]

theorem depth_one_no_history_witness :
    purge 1 emptyRing 0 = none
    ∧ shiftIdxs 1 = []
    ∧ ((rotateAndPrepare 1 emptyRing 7).getD ⟨emptyRing, none⟩).ring
      = (fun i => if i = 0 then some 7 else none)
    ∧ ((rotateAndPrepare 1 emptyRing 7).getD ⟨emptyRing, none⟩).linkDest = none :=
  depth_one_no_history 0 7 emptyRing
    ((rotateAndPrepare 1 emptyRing 7).getD ⟨emptyRing, none⟩) rfl rfl

/-- Claim C2 as stated is false: with rotation depth N = 2 and generations
populated at indices 0 and 1 (K = 1 = N-1), one rotation cycle (purge, then
shift) succeeds and leaves index 1 = N-1 occupied by the generation formerly
at index 0, so indices at or above N-1 are not all absent; the subsequent
mkdir touches only index 0 and cannot remove it. -/
theorem purge_then_shift_cex :
    (shiftRun (shiftIdxs 2) (purge 2 (fun i => if i ≤ 1 then some i else none))).2 = true
    ∧ (shiftRun (shiftIdxs 2) (purge 2 (fun i => if i ≤ 1 then some i else none))).1 1
      = some 0 :=
  ⟨by decide, by decide⟩

/-- Claim C2 (amended): if generations are populated at exactly the indices
[0..K] with N-1 ≤ K and K ≤ 98, then one rotation cycle (purge, then shift)
succeeds and leaves index 0 empty, indices at or above N absent, and each
generation formerly at an index in [0, N-2] at exactly its former index plus
one - in particular index N-1 holds the generation formerly at N-2 instead
of being absent. -/
theorem purge_then_shift_amended (n K : Nat) (ids : Nat → Nat) (g : GenRing)
    (hn : 1 ≤ n) (hK : n - 1 ≤ K) (hK98 : K ≤ 98)
    (hg : ∀ i, g i = if i ≤ K then some (ids i) else none) :
    shiftRun (shiftIdxs n) (purge n g) =
      ((fun i => if i = 0 then none else if i ≤ n - 1 then g (i - 1) else none), true) := by
  have htop : purge n g (n - 1) = none := by
    rw [purge_apply]
    exact if_pos ⟨Nat.le_refl _, by omega⟩
  rw [shiftRun_of_purged n g htop]
  refine Prod.ext ?_ rfl
  funext i
  simp only [afterShift]
  by_cases h0 : i = 0
  · simp [h0]
  · rw [if_neg h0, if_neg h0]
    by_cases hle : i ≤ n - 1
    · rw [if_pos hle, if_pos hle, purge_apply]
      have hno : ¬ (n - 1 ≤ i - 1 ∧ i - 1 ≤ 98) := by omega
      rw [if_neg hno]
    · rw [if_neg hle, if_neg hle, purge_apply]
      by_cases hin : n - 1 ≤ i ∧ i ≤ 98
      · rw [if_pos hin]
      · rw [if_neg hin, hg i, if_neg (by omega : ¬ i ≤ K)]

theorem purge_then_shift_amended_witness :
    shiftRun (shiftIdxs 3) (purge 3 (fun i => if i ≤ 2 then some (i + 10) else none)) =
      ((fun i => if i = 0 then none
        else if i ≤ 3 - 1 then (fun i => if i ≤ 2 then some (i + 10) else none) (i - 1)
        else none), true) :=
  purge_then_shift_amended 3 2 (fun i => i + 10)
    (fun i => if i ≤ 2 then some (i + 10) else none)
    (by decide) (by decide) (by decide) (fun _ => rfl)

lemma runTargets_nil (n : Nat) (be : Bool) (oc : String → Outcome)
    (fr : String → Nat) (st : St) : runTargets n be oc fr [] st = st := rfl

lemma runTargets_cons (n : Nat) (be : Bool) (oc : String → Outcome)
    (fr : String → Nat) (t : String) (ts : List String) (st : St) :
    runTargets n be oc fr (t :: ts) st
      = runTargets n be oc fr ts (stepTarget n be oc fr st t) := rfl

lemma runTargets_append (n : Nat) (be : Bool) (oc : String → Outcome)
    (fr : String → Nat) (l1 l2 : List String) (st : St) :
    runTargets n be oc fr (l1 ++ l2) st
      = runTargets n be oc fr l2 (runTargets n be oc fr l1 st) := by
  simp [runTargets, List.foldl_append]

lemma stepTarget_fs (n : Nat) (be : Bool) (oc : String → Outcome)
    (fr : String → Nat) (st : St) (t : String) :
    (stepTarget n be oc fr st t).fs
      = Function.update st.fs t (processTarget n be (oc t) (fr t) (st.fs t)).1 := rfl

lemma stepTarget_tp (n : Nat) (be : Bool) (oc : String → Outcome)
    (fr : String → Nat) (st : St) (t : String) :
    (stepTarget n be oc fr st t).tp = (if be then true else st.tp) := rfl

lemma stepTarget_happy (n : Nat) (be : Bool) (oc : String → Outcome)
    (fr : String → Nat) (st : St) (t : String) :
    (stepTarget n be oc fr st t).happy
      = (match (processTarget n be (oc t) (fr t) (st.fs t)).2 with
        | some _ => st.happy
        | none => false) := rfl

lemma stepTarget_subtotal (n : Nat) (be : Bool) (oc : String → Outcome)
    (fr : String → Nat) (st : St) (t : String) :
    (stepTarget n be oc fr st t).subtotal
      = st.subtotal + ((processTarget n be (oc t) (fr t) (st.fs t)).2).getD 0 := rfl

lemma stepTarget_happy_false (n : Nat) (be : Bool) (oc : String → Outcome)
    (fr : String → Nat) (st : St) (t : String) (h : st.happy = false) :
    (stepTarget n be oc fr st t).happy = false := by
  rw [stepTarget_happy]
  cases (processTarget n be (oc t) (fr t) (st.fs t)).2 <;> simp [h]

lemma runTargets_happy_false (n : Nat) (be : Bool) (oc : String → Outcome)
    (fr : String → Nat) : ∀ (ts : List String) (st : St), st.happy = false →
    (runTargets n be oc fr ts st).happy = false := by
  intro ts
  induction ts with
  | nil => intro st h; exact h
  | cons t ts ih =>
    intro st h
    rw [runTargets_cons]
    exact ih _ (stepTarget_happy_false n be oc fr st t h)

lemma runTargets_indep (n : Nat) (be : Bool) (oc : String → Outcome)
    (fr : String → Nat) : ∀ (ts : List String) (st1 st2 : St),
    st1.fs = st2.fs → st1.tp = st2.tp → st1.subtotal = st2.subtotal →
    (runTargets n be oc fr ts st1).fs = (runTargets n be oc fr ts st2).fs
    ∧ (runTargets n be oc fr ts st1).tp = (runTargets n be oc fr ts st2).tp
    ∧ (runTargets n be oc fr ts st1).subtotal
      = (runTargets n be oc fr ts st2).subtotal := by
  intro ts
  induction ts with
  | nil => intro st1 st2 hf ht hs; exact ⟨hf, ht, hs⟩
  | cons t ts ih =>
    intro st1 st2 hf ht hs
    rw [runTargets_cons, runTargets_cons]
    apply ih
    · rw [stepTarget_fs, stepTarget_fs, hf]
    · rw [stepTarget_tp, stepTarget_tp, ht]
    · rw [stepTarget_subtotal, stepTarget_subtotal, hf, hs]

lemma runTargets_subtotal (n : Nat) (be : Bool) (oc : String → Outcome)
    (fr : String → Nat) : ∀ (ts : List String) (st : St),
    (runTargets n be oc fr ts st).subtotal
      = st.subtotal + (runSizes n be oc fr ts st).sum := by
  intro ts
  induction ts with
  | nil => intro st; simp [runTargets_nil, runSizes]
  | cons t ts ih =>
    intro st
    rw [runTargets_cons, ih]
    cases hr : (processTarget n be (oc t) (fr t) (st.fs t)).2 with
    | none =>
      simp only [runSizes, hr, stepTarget_subtotal]
      simp
    | some s =>
      simp only [runSizes, hr, stepTarget_subtotal, List.sum_cons]
      simp
      omega

lemma runJob_happy_false (be : Bool) (j : JobSpec) : (runJob be j false).1 = false := by
  rw [runJob]
  cases j.disc with
  | error e => rfl
  | ok ts =>
    exact runTargets_happy_false j.rotateLevel be j.oc j.fr ts
      { fs := j.fs0, tp := j.tp0, happy := false, subtotal := 0 } rfl

lemma runJob_sub_indep (be : Bool) (j : JobSpec) (h : Bool) :
    (runJob be j h).2 = (runJob be j true).2 := by
  rw [runJob, runJob]
  cases j.disc with
  | error e => rfl
  | ok ts =>
    exact (runTargets_indep j.rotateLevel be j.oc j.fr ts
      { fs := j.fs0, tp := j.tp0, happy := h, subtotal := 0 }
      { fs := j.fs0, tp := j.tp0, happy := true, subtotal := 0 } rfl rfl rfl).2.2

lemma foldl_batchStep_fst (be : Bool) : ∀ (jobs : List JobSpec) (h : Bool) (tot : Nat),
    (jobs.foldl (batchStep be) (h, tot)).1 = (runBatch be jobs h).1 := by
  intro jobs
  induction jobs with
  | nil => intro h tot; rfl
  | cons j jobs ih =>
    intro h tot
    rw [runBatch, List.foldl_cons, List.foldl_cons]
    have e1 : batchStep be (h, tot) j = ((runJob be j h).1, tot + (runJob be j h).2) := rfl
    have e2 : batchStep be (h, 0) j = ((runJob be j h).1, 0 + (runJob be j h).2) := rfl
    rw [e1, e2, ih, ih]

lemma foldl_batchStep_snd (be : Bool) : ∀ (jobs : List JobSpec) (h : Bool) (tot : Nat),
    (jobs.foldl (batchStep be) (h, tot)).2 = tot + (runBatch be jobs h).2 := by
  intro jobs
  induction jobs with
  | nil => intro h tot; simp [runBatch]
  | cons j jobs ih =>
    intro h tot
    rw [runBatch, List.foldl_cons, List.foldl_cons]
    have e1 : batchStep be (h, tot) j = ((runJob be j h).1, tot + (runJob be j h).2) := rfl
    have e2 : batchStep be (h, 0) j = ((runJob be j h).1, 0 + (runJob be j h).2) := rfl
    rw [e1, e2, ih, ih]
    omega

lemma runBatch_happy_false (be : Bool) : ∀ (jobs : List JobSpec),
    (runBatch be jobs false).1 = false := by
  intro jobs
  induction jobs with
  | nil => rfl
  | cons j jobs ih =>
    rw [runBatch, List.foldl_cons]
    have e : batchStep be (false, 0) j
      = ((runJob be j false).1, 0 + (runJob be j false).2) := rfl
    rw [e, runJob_happy_false, foldl_batchStep_fst]
    exact ih

lemma runBatch_append_fst (be : Bool) (jobs1 jobs2 : List JobSpec) (h : Bool) :
    (runBatch be (jobs1 ++ jobs2) h).1
      = (runBatch be jobs2 (runBatch be jobs1 h).1).1 := by
  rw [runBatch, List.foldl_append]
  have e : runBatch be jobs1 h
    = ((runBatch be jobs1 h).1, (runBatch be jobs1 h).2) := rfl
  rw [show (List.foldl (batchStep be) (h, 0) jobs1) = runBatch be jobs1 h from rfl, e,
    foldl_batchStep_fst]

lemma runBatch_total (be : Bool) : ∀ (jobs : List JobSpec) (h : Bool),
    (runBatch be jobs h).2 = (jobs.map (fun j => (runJob be j true).2)).sum := by
  intro jobs
  induction jobs with
  | nil => intro h; rfl
  | cons j jobs ih =>
    intro h
    rw [runBatch, List.foldl_cons]
    have e : batchStep be (h, 0) j = ((runJob be j h).1, 0 + (runJob be j h).2) := rfl
    rw [e, foldl_batchStep_snd, ih, List.map_cons, List.sum_cons, runJob_sub_indep]
    omega

/-- Claim C4: a rotation, sync or parse error on one target is caught by the
per-target except clause: the run over the whole discovery-ordered list
equals processing the targets before t, then t itself, then continuing with
the targets after t; processing t (failure included) changes no ring but
t's own (the new filesystem is an update of the old one at t alone); and
the failing step leaves the happy flag false. -/
theorem target_failure_isolated (n : Nat) (be : Bool) (oc : String → Outcome)
    (fr : String → Nat) (pre post : List String) (t : String) (st : St)
    (hfail : (processTarget n be (oc t) (fr t)
      ((runTargets n be oc fr pre st).fs t)).2 = none) :
    runTargets n be oc fr (pre ++ t :: post) st
      = runTargets n be oc fr post
          (stepTarget n be oc fr (runTargets n be oc fr pre st) t)
    ∧ (stepTarget n be oc fr (runTargets n be oc fr pre st) t).fs
      = Function.update (runTargets n be oc fr pre st).fs t
          ((stepTarget n be oc fr (runTargets n be oc fr pre st) t).fs t)
    ∧ (stepTarget n be oc fr (runTargets n be oc fr pre st) t).happy = false := by
  refine ⟨?_, ?_, ?_⟩
  · rw [runTargets_append, runTargets_cons]
  · rw [stepTarget_fs, Function.update_same]
  · rw [stepTarget_happy, hfail]

theorem target_failure_isolated_witness :
    runTargets 1 true (fun _ => ⟨fun _ => false, false, none⟩) (fun _ => 0)
        (["a"] ++ "b" :: ["c"]) ⟨fun _ => emptyRing, true, true, 0⟩
      = runTargets 1 true (fun _ => ⟨fun _ => false, false, none⟩) (fun _ => 0) ["c"]
          (stepTarget 1 true (fun _ => ⟨fun _ => false, false, none⟩) (fun _ => 0)
            (runTargets 1 true (fun _ => ⟨fun _ => false, false, none⟩) (fun _ => 0)
              ["a"] ⟨fun _ => emptyRing, true, true, 0⟩) "b")
    ∧ (stepTarget 1 true (fun _ => ⟨fun _ => false, false, none⟩) (fun _ => 0)
        (runTargets 1 true (fun _ => ⟨fun _ => false, false, none⟩) (fun _ => 0)
          ["a"] ⟨fun _ => emptyRing, true, true, 0⟩) "b").fs
      = Function.update
          (runTargets 1 true (fun _ => ⟨fun _ => false, false, none⟩) (fun _ => 0)
            ["a"] ⟨fun _ => emptyRing, true, true, 0⟩).fs "b"
          ((stepTarget 1 true (fun _ => ⟨fun _ => false, false, none⟩) (fun _ => 0)
            (runTargets 1 true (fun _ => ⟨fun _ => false, false, none⟩) (fun _ => 0)
              ["a"] ⟨fun _ => emptyRing, true, true, 0⟩) "b").fs "b")
    ∧ (stepTarget 1 true (fun _ => ⟨fun _ => false, false, none⟩) (fun _ => 0)
        (runTargets 1 true (fun _ => ⟨fun _ => false, false, none⟩) (fun _ => 0)
          ["a"] ⟨fun _ => emptyRing, true, true, 0⟩) "b").happy = false :=
  target_failure_isolated 1 true (fun _ => ⟨fun _ => false, false, none⟩) (fun _ => 0)
    ["a"] ["c"] "b" ⟨fun _ => emptyRing, true, true, 0⟩ rfl

/-- Claim C6: when the job's root backup directory does not exist, every
target of the job raises before touching its ring, so the whole per-target
run leaves every ring, the target_path flag and the subtotal unchanged and
(unless there was no target at all) only flips the happy flag - no target is
rotated or synced; and when the root directory does exist, processing a
target ensures the job's target_path subdirectory exists, creating it if
missing. -/
theorem root_dir_checked (n : Nat) (oc : String → Outcome) (fr : String → Nat)
    (ts : List String) (st : St) (t : String) :
    runTargets n false oc fr ts st
      = { fs := st.fs, tp := st.tp, happy := st.happy && ts.isEmpty,
          subtotal := st.subtotal }
    ∧ (stepTarget n true oc fr st t).tp = true := by
  constructor
  · induction ts generalizing st with
    | nil =>
      cases st
      simp [runTargets_nil]
    | cons t2 ts2 ih =>
      rw [runTargets_cons]
      have hst : stepTarget n false oc fr st t2
          = { fs := st.fs, tp := st.tp, happy := false, subtotal := st.subtotal } := by
        ext1
        · rw [stepTarget_fs]
          exact Function.update_eq_self t2 st.fs
        · rw [stepTarget_tp]
          rfl
        · rfl
        · rfl
      rw [hst, ih]
      simp
  · rw [stepTarget_tp]
    rfl

/-- Claim C7: the batch-wide happy flag starts true (mainBatch runs the job
loop with happy = true); once false it stays false through any further jobs
and through any further targets; a discovery error flips it false for good;
and a failed target flips it false for good within the job. -/
theorem happy_monotone (be h : Bool) (jobs jobs2 rest : List JobSpec) (jErr : JobSpec)
    (e : String) (n : Nat) (oc : String → Outcome) (fr : String → Nat)
    (ts ts2 : List String) (st st2 : St) (t : String)
    (hfalse : (runBatch be jobs h).1 = false)
    (hst : st.happy = false)
    (hj : jErr.disc = Except.error e)
    (herr : (processTarget n be (oc t) (fr t) (st2.fs t)).2 = none) :
    mainBatch be jobs2 = runBatch be jobs2 true
    ∧ (runBatch be (jobs ++ rest) h).1 = false
    ∧ (runTargets n be oc fr ts st).happy = false
    ∧ (runBatch be (jErr :: rest) h).1 = false
    ∧ (runTargets n be oc fr (t :: ts2) st2).happy = false := by
  refine ⟨rfl, ?_, ?_, ?_, ?_⟩
  · rw [runBatch_append_fst, hfalse, runBatch_happy_false]
  · exact runTargets_happy_false n be oc fr ts st hst
  · rw [runBatch, List.foldl_cons]
    have e1 : batchStep be (h, 0) jErr
      = ((runJob be jErr h).1, 0 + (runJob be jErr h).2) := rfl
    have e2 : runJob be jErr h = (false, 0) := by rw [runJob, hj]
    rw [e1, e2, foldl_batchStep_fst]
    exact runBatch_happy_false be rest
  · rw [runTargets_cons]
    apply runTargets_happy_false
    rw [stepTarget_happy, herr]

theorem happy_monotone_witness :
    mainBatch true ([] : List JobSpec) = runBatch true ([] : List JobSpec) true
    ∧ (runBatch true
        ([⟨1, Except.error "x", fun _ => ⟨fun _ => false, true, some 0⟩,
            fun _ => 0, fun _ => emptyRing, true⟩] ++ []) true).1 = false
    ∧ (runTargets 1 true (fun _ => ⟨fun _ => false, false, none⟩) (fun _ => 0) []
        ⟨fun _ => emptyRing, true, false, 0⟩).happy = false
    ∧ (runBatch true
        ([⟨1, Except.error "x", fun _ => ⟨fun _ => false, true, some 0⟩,
            fun _ => 0, fun _ => emptyRing, true⟩] : List JobSpec) true).1 = false
    ∧ (runTargets 1 true (fun _ => ⟨fun _ => false, false, none⟩) (fun _ => 0)
        ("a" :: []) ⟨fun _ => emptyRing, true, true, 0⟩).happy = false :=
  happy_monotone true true
    [⟨1, Except.error "x", fun _ => ⟨fun _ => false, true, some 0⟩,
      fun _ => 0, fun _ => emptyRing, true⟩] []
    []
    ⟨1, Except.error "x", fun _ => ⟨fun _ => false, true, some 0⟩,
      fun _ => 0, fun _ => emptyRing, true⟩ "x"
    1 (fun _ => ⟨fun _ => false, false, none⟩) (fun _ => 0) [] []
    ⟨fun _ => emptyRing, true, false, 0⟩ ⟨fun _ => emptyRing, true, true, 0⟩ "a"
    rfl rfl rfl rfl

/-- Claim C8: discovery yields an error - carrying the remote process's
captured stderr text - exactly when the exit status is non-zero; a zero
status with empty output parses to zero targets; and a job whose discovery
returned zero targets completes as a no-op: the happy flag it was given is
returned unchanged and the job contributes nothing to the total. -/
theorem discovery_status (status : Int) (out errText : String) (n : Nat)
    (oc : String → Outcome) (fr : String → Nat) (fs0 : String → GenRing)
    (tp0 : Bool) (h be : Bool) :
    listTargets status out errText
      = (if status = 0 then Except.ok (splitTokens out) else Except.error errText)
    ∧ listTargets 0 "" errText = Except.ok []
    ∧ runBatch be [⟨n, Except.ok [], oc, fr, fs0, tp0⟩] h = (h, 0) := by
  refine ⟨?_, ?_, ?_⟩
  · by_cases hs : status = 0
    · simp [listTargets, hs]
    · simp [listTargets, hs]
  · simp only [listTargets]
    norm_num
    rw [splitTokens, String.split_of_valid]
    rfl
  · rfl

/-- Claim C9: the job subtotal after the per-target loop is the initial
subtotal plus the sum of the transferred-byte counts of the successful
targets in order; the batch total is the sum of the job subtotals; and on
the spec's example - one job, two successful targets of 1048576 and 2097152
bytes - the job subtotal is 3145728 bytes. -/
theorem byte_totals_sum (n : Nat) (be : Bool) (oc : String → Outcome)
    (fr : String → Nat) (ts : List String) (st : St) (jobs : List JobSpec)
    (h : Bool) :
    (runTargets n be oc fr ts st).subtotal
      = st.subtotal + (runSizes n be oc fr ts st).sum
    ∧ (runBatch be jobs h).2 = (jobs.map (fun j => (runJob be j true).2)).sum
    ∧ (runTargets 2 true
        (fun t => ⟨fun _ => false, true, some (if t = "a" then 1048576 else 2097152)⟩)
        (fun _ => 0) ["a", "b"] ⟨fun _ => emptyRing, true, true, 0⟩).subtotal
      = 3145728 :=
  ⟨runTargets_subtotal n be oc fr ts st, runBatch_total be jobs h, by rfl⟩

lemma purgeRun_append (fail : Nat → Bool) : ∀ (l1 l2 : List Nat) (g : GenRing),
    purgeRun fail (l1 ++ l2) g
      = (if (purgeRun fail l1 g).2 then purgeRun fail l2 (purgeRun fail l1 g).1
         else purgeRun fail l1 g) := by
  intro l1
  induction l1 with
  | nil => intro l2 g; simp [purgeRun]
  | cons r rs ih =>
    intro l2 g
    by_cases h1 : (g r).isSome
    · by_cases h2 : fail r
      · simp [purgeRun, h1, h2]
      · simp [purgeRun, h1, h2, ih]
    · simp [purgeRun, h1, ih]

/-- Claim C5 as stated is false: with rotation depth 1 (purge indices
0..98), generations existing at indices 0 and 1 and rmtree raising at index
0, the purge loop stops at once with an error - the existing generation at
index 1 is still there and its deletion was never attempted, so a failure
at one index does prevent the purge of the remaining indices. -/
theorem purge_failure_cex :
    (purgeRun (fun r => r == 0) (purgeIdxs 1)
      (fun i => if i ≤ 1 then some i else none)).2 = false
    ∧ (purgeRun (fun r => r == 0) (purgeIdxs 1)
        (fun i => if i ≤ 1 then some i else none)).1 1 = some 1 :=
  ⟨by decide, by decide⟩

/-- Claim C5 (amended): when `shutil.rmtree` raises at the first failing
existing index r of the purge range, the purge loop aborts immediately - the
ring keeps the deletions made before r and the indices after r are not
attempted - and the per-target body reports the error (`none` transferred
bytes), which the per-target except clause turns into a logged error and a
false happy flag while the batch moves to the next target. -/
theorem purge_failure_aborts (fail : Nat → Bool) (g g1 : GenRing) (l1 rs : List Nat)
    (r : Nat) (n fresh : Nat) (oc : Outcome) (g2 gp : GenRing)
    (hpre : purgeRun fail l1 g = (g1, true))
    (h1 : (g1 r).isSome = true) (h2 : fail r = true)
    (hq : purgeRun oc.rmFail (purgeIdxs n) g2 = (gp, false)) :
    purgeRun fail (l1 ++ r :: rs) g = (g1, false)
    ∧ processTarget n true oc fresh g2 = (gp, none) := by
  constructor
  · rw [purgeRun_append, hpre, if_pos rfl]
    simp [purgeRun, h1, h2]
  · simp only [processTarget, if_true]
    rw [hq]

theorem purge_failure_aborts_witness :
    purgeRun (fun r => r == 1) ([0] ++ 1 :: [])
        (fun i => if i ≤ 1 then some i else none)
      = (rmIdx (fun i => if i ≤ 1 then some i else none) 0, false)
    ∧ processTarget 1 true ⟨fun r => r == 0, true, some 0⟩ 5
        (fun i => if i ≤ 1 then some i else none)
      = ((fun i => if i ≤ 1 then some i else none), none) :=
  purge_failure_aborts (fun r => r == 1) (fun i => if i ≤ 1 then some i else none)
    (rmIdx (fun i => if i ≤ 1 then some i else none) 0) [0] [] 1 1 5
    ⟨fun r => r == 0, true, some 0⟩ (fun i => if i ≤ 1 then some i else none)
    (fun i => if i ≤ 1 then some i else none)
    rfl rfl rfl rfl
